import Mathlib

/-!
Shallow embedding of the supply-chain visualiser's core module
(`data_utils.py`): edge building from an adjacency matrix, graph
construction, bounded-depth dependency traversal, node-role
classification and impact metrics.

Tables are embedded as lists of rows; the pandas `row[tgt]` lookup that
raises `KeyError` on a missing column is embedded as an `Option`-valued
cell lookup, so `build_edges` returns `Option` (with `none` standing for
the raised exception).  `networkx.MultiDiGraph` is embedded as a list of
node ids plus a list of directed edges; `add_edge` silently adds missing
endpoint nodes, exactly as networkx does.
-/

namespace SupplyChain

/-- A row of the NODES table.  Only the columns the core logic reads are
carried (`id` and `region`); the remaining display columns (label,
coordinates, size) are never consulted by the verified functions. -/
structure NodeRow where
  id : String
  region : String
  deriving DecidableEq, Repr

/-- A row of the MATRIX table: the `FROM/TO` source column plus the other
columns as an association list from column name to cell value. -/
structure MatrixRow where
  fromTo : String
  cells : List (String × Int)
  deriving DecidableEq, Repr

/-- A row of the edge table produced by `build_edges`: columns
`from`, `to`, `weight` (renamed `src`/`tgt` because `from` is reserved). -/
structure EdgeRow where
  src : String
  tgt : String
  weight : Int
  deriving DecidableEq, Repr

/-- A directed edge of the multigraph, with its `weight` attribute
(`none` embeds an edge dict without a `weight` key). -/
structure GEdge where
  src : String
  tgt : String
  weight : Option Int
  deriving DecidableEq, Repr

/-- A `networkx.MultiDiGraph`: node set (as a list) and edge list.
Parallel edges are kept with multiplicity. -/
structure Graph where
  nodes : List String
  edges : List GEdge
  deriving DecidableEq, Repr

/-- Well-formedness of a networkx graph: every edge endpoint is a node.
`add_node`/`add_edge` maintain this for every graph networkx can build. -/
def Graph.Wf (G : Graph) : Prop :=
  ∀ e ∈ G.edges, e.src ∈ G.nodes ∧ e.tgt ∈ G.nodes

instance (G : Graph) : Decidable G.Wf := by
  unfold Graph.Wf
  infer_instance

/-- The `id` column of the node table (`nodes["id"].tolist()`). -/
def node_ids (nodes : List NodeRow) : List String :=
  nodes.map (fun r => r.id)

/-- `row[tgt]`: look the cell up by column name; `none` embeds the
`KeyError` pandas raises when the column is absent. -/
def rowCell (row : MatrixRow) (tgt : String) : Option Int :=
  (row.cells.find? (fun c => c.1 = tgt)).map (fun c => c.2)

/-- The inner loop of `build_edges`: for one matrix row, walk the node
ids in order and emit an edge for every strictly positive cell. -/
def rowEdges (src : String) (row : MatrixRow) : List String → Option (List EdgeRow)
  | [] => some []
  | t :: ts => do
      let w ← rowCell row t
      let rest ← rowEdges src row ts
      pure (if 0 < w then ⟨src, t, w⟩ :: rest else rest)

/-- `build_edges(nodes, matrix)`: one pass over the matrix rows, reading
the cell of every node id; `none` embeds the `KeyError` raised when a
node id is not a column of some row. -/
def build_edges (nodes : List NodeRow) : List MatrixRow → Option (List EdgeRow)
  | [] => some []
  | row :: rest => do
      let here ← rowEdges row.fromTo row (node_ids nodes)
      let there ← build_edges nodes rest
      pure (here ++ there)

/-- `G.add_node(n)`: a no-op on the node set when `n` is already present. -/
def addNode (G : Graph) (n : String) : Graph :=
  if n ∈ G.nodes then G else ⟨G.nodes ++ [n], G.edges⟩

/-- `G.add_edge(s, t, weight=w)`: networkx first adds any missing
endpoint as a fresh node, then appends the edge. -/
def addEdge (G : Graph) (s t : String) (w : Option Int) : Graph :=
  let G1 := addNode (addNode G s) t
  ⟨G1.nodes, G1.edges ++ [⟨s, t, w⟩]⟩

/-- `build_graph(nodes, edges)`: add every node row, then every edge row
(the `type`/`active` attributes are attached in the source but never read
by the verified functions, so they are not carried). -/
def build_graph (nodes : List NodeRow) (edges : List EdgeRow) : Graph :=
  let G0 := nodes.foldl (fun G r => addNode G r.id) ⟨[], []⟩
  edges.foldl (fun G e => addEdge G e.src e.tgt (some e.weight)) G0

/-- `set(graph.successors(n))`. -/
def successors (G : Graph) (n : String) : Finset String :=
  ((G.edges.filter (fun e => e.src = n)).map (fun e => e.tgt)).toFinset

/-- `set(graph.predecessors(n))`. -/
def predecessors (G : Graph) (n : String) : Finset String :=
  ((G.edges.filter (fun e => e.tgt = n)).map (fun e => e.src)).toFinset

/-- The union of the successors of a frontier (one downstream step). -/
def childrenOf (G : Graph) (S : Finset String) : Finset String :=
  S.biUnion (successors G)

/-- The union of the predecessors of a frontier (one upstream step). -/
def parentsOf (G : Graph) (S : Finset String) : Finset String :=
  S.biUnion (predecessors G)

/-- The downstream accumulation loop of `compute_dependency_subgraph`:
`for _ in range(d): children = ⋃ successors(current); downstream |= children;
current = children`. -/
def downLoop (G : Graph) : Finset String → Finset String → Nat → Finset String
  | acc, _, 0 => acc
  | acc, cur, d + 1 => downLoop G (acc ∪ childrenOf G cur) (childrenOf G cur) d

/-- The upstream accumulation loop, symmetric with predecessors. -/
def upLoop (G : Graph) : Finset String → Finset String → Nat → Finset String
  | acc, _, 0 => acc
  | acc, cur, d + 1 => upLoop G (acc ∪ parentsOf G cur) (parentsOf G cur) d

/-- The downstream set of a focus node at a given depth. -/
def downstreamSet (G : Graph) (focus : String) (d : Nat) : Finset String :=
  downLoop G ∅ {focus} d

/-- The upstream set of a focus node at a given depth. -/
def upstreamSet (G : Graph) (focus : String) (d : Nat) : Finset String :=
  upLoop G ∅ {focus} d

/-- `graph.subgraph(S).copy()`: the induced subgraph on the nodes of `G`
lying in `S`, with every edge of `G` whose endpoints both lie in `S`. -/
def inducedSubgraph (G : Graph) (S : Finset String) : Graph :=
  ⟨G.nodes.filter (fun n => decide (n ∈ S)),
   G.edges.filter (fun e => decide (e.src ∈ S ∧ e.tgt ∈ S))⟩

/-- `compute_dependency_subgraph(graph, focus_node, max_depth)`.  Returns
`(upstream, downstream, subgraph)`; when the focus is `None` or absent
from the graph it returns two empty sets and the input graph unchanged. -/
def compute_dependency_subgraph (G : Graph) (focus : Option String)
    (max_depth : Nat) : Finset String × Finset String × Graph :=
  match focus with
  | none => (∅, ∅, G)
  | some f =>
      if f ∈ G.nodes then
        let upstream := upstreamSet G f max_depth
        let downstream := downstreamSet G f max_depth
        let relevant := upstream ∪ downstream ∪ {f}
        (upstream, downstream, inducedSubgraph G relevant)
      else (∅, ∅, G)

/-- A dictionary write `roles[k] = v` on a map embedded as a function. -/
def upd (m : String → Option String) (k v : String) : String → Option String :=
  fun x => if x = k then some v else m x

/-- `classify_nodes(focus_node, upstream, downstream)`: the role dict,
built by writing `upstream` first, then `downstream` (overwriting), then
`focus` (overwriting); embedded as the resulting lookup function. -/
def classify_nodes (focus : Option String) (upstream downstream : Finset String) :
    String → Option String :=
  let m0 : String → Option String := fun _ => none
  let m1 := (upstream.sort (fun a b => a ≤ b)).foldl (fun m n => upd m n "upstream") m0
  let m2 := (downstream.sort (fun a b => a ≤ b)).foldl (fun m n => upd m n "downstream") m1
  match focus with
  | some f => upd m2 f "focus"
  | none => m2

/-- The record returned by `compute_impact_metrics`. -/
structure Metrics where
  upstream_count : Nat
  downstream_count : Nat
  regions_affected : Nat
  downstream_weight : Int
  deriving DecidableEq, Repr

/-- `compute_impact_metrics(graph, nodes_df, focus_node, max_depth)`:
recomputes the two traversals, counts distinct regions among downstream
rows of the node table, and sums `data.get("weight", 0)` over the edges
`(u, v)` with `u ∈ downstream ∨ u = focus` and `v ∈ downstream`. -/
def compute_impact_metrics (G : Graph) (nodes_df : List NodeRow)
    (focus : Option String) (max_depth : Nat) : Metrics :=
  match focus with
  | none => ⟨0, 0, 0, 0⟩
  | some f =>
      if f ∈ G.nodes then
        let upstream := upLoop G ∅ {f} max_depth
        let downstream := downLoop G ∅ {f} max_depth
        let downstream_rows := nodes_df.filter (fun r => decide (r.id ∈ downstream))
        let regions_affected := ((downstream_rows.map (fun r => r.region)).dedup).length
        let downstream_weight := G.edges.foldl
          (fun acc e =>
            if (e.src ∈ downstream ∨ e.src = f) ∧ e.tgt ∈ downstream then
              acc + e.weight.getD 0
            else acc) 0
        ⟨upstream.card, downstream.card, regions_affected, downstream_weight⟩
      else ⟨0, 0, 0, 0⟩

/-- The frontier after `k` downstream expansion steps from `S`. -/
def iterSucc (G : Graph) : Finset String → Nat → Finset String
  | S, 0 => S
  | S, k + 1 => iterSucc G (childrenOf G S) k

/-- The frontier after `k` upstream expansion steps from `S`. -/
def iterPred (G : Graph) : Finset String → Nat → Finset String
  | S, 0 => S
  | S, k + 1 => iterPred G (parentsOf G S) k

/-- Spec-side description of the edge builder's output (for the
refinement comparison of C10): one edge row per (source, target) pair
whose matrix cell is strictly positive, the weight copied verbatim,
zero and negative cells dropped. -/
def edgesFromPositiveCells (ns : List NodeRow) (mx : List MatrixRow) : List EdgeRow :=
  mx.flatMap (fun row =>
    (node_ids ns).filterMap (fun t =>
      match rowCell row t with
      | some w => if 0 < w then some ⟨row.fromTo, t, w⟩ else none
      | none => none))

/-- Spec-side description of the downstream weight (for the refinement
comparison of C5): the sum, over all edges `(u, v)` of the full graph
with `u` in the downstream set or `u` the focus and `v` in the
downstream set, of the edge's weight, a missing weight counting 0. -/
def downstream_weight_spec (G : Graph) (f : String) (down : Finset String) : Int :=
  ((G.edges.filter (fun e =>
      decide ((e.src ∈ down ∨ e.src = f) ∧ e.tgt ∈ down))).map
    (fun e => e.weight.getD 0)).sum

theorem mem_successors {G : Graph} {n t : String} :
    t ∈ successors G n ↔ ∃ e ∈ G.edges, e.src = n ∧ e.tgt = t := by
  simp only [successors, List.mem_toFinset, List.mem_map, List.mem_filter]
  constructor
  · rintro ⟨e, ⟨he, hs⟩, ht⟩
    exact ⟨e, he, by simpa using hs, ht⟩
  · rintro ⟨e, he, hs, ht⟩
    exact ⟨e, ⟨he, by simpa using hs⟩, ht⟩

theorem mem_predecessors {G : Graph} {n p : String} :
    p ∈ predecessors G n ↔ ∃ e ∈ G.edges, e.src = p ∧ e.tgt = n := by
  simp only [predecessors, List.mem_toFinset, List.mem_map, List.mem_filter]
  constructor
  · rintro ⟨e, ⟨he, ht⟩, hs⟩
    exact ⟨e, he, hs, by simpa using ht⟩
  · rintro ⟨e, he, hs, ht⟩
    exact ⟨e, ⟨he, by simpa using ht⟩, hs⟩

theorem mem_childrenOf {G : Graph} {S : Finset String} {c : String} :
    c ∈ childrenOf G S ↔ ∃ n ∈ S, ∃ e ∈ G.edges, e.src = n ∧ e.tgt = c := by
  simp only [childrenOf, Finset.mem_biUnion, mem_successors]

theorem mem_parentsOf {G : Graph} {S : Finset String} {p : String} :
    p ∈ parentsOf G S ↔ ∃ n ∈ S, ∃ e ∈ G.edges, e.src = p ∧ e.tgt = n := by
  simp only [parentsOf, Finset.mem_biUnion, mem_predecessors]

theorem iterSucc_succ_out (G : Graph) :
    ∀ (k : Nat) (S : Finset String),
      iterSucc G S (k + 1) = childrenOf G (iterSucc G S k) := by
  intro k
  induction k with
  | zero => intro S; rfl
  | succ k ih =>
      intro S
      show iterSucc G (childrenOf G S) (k + 1) = _
      rw [ih (childrenOf G S)]
      rfl

theorem iterPred_succ_out (G : Graph) :
    ∀ (k : Nat) (S : Finset String),
      iterPred G S (k + 1) = parentsOf G (iterPred G S k) := by
  intro k
  induction k with
  | zero => intro S; rfl
  | succ k ih =>
      intro S
      show iterPred G (parentsOf G S) (k + 1) = _
      rw [ih (parentsOf G S)]
      rfl

theorem mem_iterSucc_split (G : Graph) :
    ∀ (k : Nat) (S : Finset String) (x : String),
      x ∈ iterSucc G S k ↔ ∃ n ∈ S, x ∈ iterSucc G {n} k := by
  intro k
  induction k with
  | zero =>
      intro S x
      simp [iterSucc]
  | succ k ih =>
      intro S x
      show x ∈ iterSucc G (childrenOf G S) k ↔ _
      rw [ih (childrenOf G S) x]
      constructor
      · rintro ⟨c, hc, hx⟩
        rw [mem_childrenOf] at hc
        obtain ⟨n, hn, e, he, hs, ht⟩ := hc
        refine ⟨n, hn, ?_⟩
        show x ∈ iterSucc G (childrenOf G {n}) k
        rw [ih (childrenOf G {n}) x]
        exact ⟨c, mem_childrenOf.mpr ⟨n, Finset.mem_singleton_self n, e, he, hs, ht⟩, hx⟩
      · rintro ⟨n, hn, hx⟩
        have hx' : x ∈ iterSucc G (childrenOf G {n}) k := hx
        rw [ih (childrenOf G {n}) x] at hx'
        obtain ⟨c, hc, hxc⟩ := hx'
        rw [mem_childrenOf] at hc
        obtain ⟨m, hm, e, he, hs, ht⟩ := hc
        rw [Finset.mem_singleton] at hm
        exact ⟨c, mem_childrenOf.mpr ⟨n, hn, e, he, hm ▸ hs, ht⟩, hxc⟩

theorem mem_iterPred_iterSucc (G : Graph) :
    ∀ (k : Nat) (a b : String),
      a ∈ iterPred G {b} k ↔ b ∈ iterSucc G {a} k := by
  intro k
  induction k with
  | zero =>
      intro a b
      simp [iterPred, iterSucc, eq_comm]
  | succ k ih =>
      intro a b
      rw [iterPred_succ_out G k {b}]
      rw [mem_parentsOf]
      constructor
      · rintro ⟨n, hn, e, he, hs, ht⟩
        rw [ih n b] at hn
        show b ∈ iterSucc G (childrenOf G {a}) k
        rw [mem_iterSucc_split G k (childrenOf G {a}) b]
        refine ⟨n, ?_, ?_⟩
        · exact mem_childrenOf.mpr ⟨a, Finset.mem_singleton_self a, e, he, hs, ht⟩
        · exact hn
      · intro hb
        have hb' : b ∈ iterSucc G (childrenOf G {a}) k := hb
        rw [mem_iterSucc_split G k (childrenOf G {a}) b] at hb'
        obtain ⟨c, hc, hbc⟩ := hb'
        rw [mem_childrenOf] at hc
        obtain ⟨m, hm, e, he, hs, ht⟩ := hc
        rw [Finset.mem_singleton] at hm
        subst hm
        exact ⟨c, (ih c b).mpr hbc, e, he, hs, ht⟩

theorem mem_downLoop (G : Graph) :
    ∀ (d : Nat) (acc cur : Finset String) (x : String),
      x ∈ downLoop G acc cur d ↔
        x ∈ acc ∨ ∃ k, 0 < k ∧ k ≤ d ∧ x ∈ iterSucc G cur k := by
  intro d
  induction d with
  | zero =>
      intro acc cur x
      simp only [downLoop]
      constructor
      · exact fun h => Or.inl h
      · rintro (h | ⟨k, hk, hk0, _⟩)
        · exact h
        · omega
  | succ d ih =>
      intro acc cur x
      show x ∈ downLoop G (acc ∪ childrenOf G cur) (childrenOf G cur) d ↔ _
      rw [ih (acc ∪ childrenOf G cur) (childrenOf G cur) x]
      rw [Finset.mem_union]
      constructor
      · rintro ((h | h) | ⟨k, hk0, hkd, hx⟩)
        · exact Or.inl h
        · exact Or.inr ⟨1, Nat.one_pos, Nat.succ_le_succ (Nat.zero_le d), h⟩
        · exact Or.inr ⟨k + 1, Nat.succ_pos k, Nat.succ_le_succ hkd, hx⟩
      · rintro (h | ⟨k, hk0, hkd, hx⟩)
        · exact Or.inl (Or.inl h)
        · match k, hk0 with
          | 1, _ => exact Or.inl (Or.inr hx)
          | k + 2, _ =>
              exact Or.inr ⟨k + 1, Nat.succ_pos k, Nat.le_of_succ_le_succ hkd, hx⟩

theorem mem_upLoop (G : Graph) :
    ∀ (d : Nat) (acc cur : Finset String) (x : String),
      x ∈ upLoop G acc cur d ↔
        x ∈ acc ∨ ∃ k, 0 < k ∧ k ≤ d ∧ x ∈ iterPred G cur k := by
  intro d
  induction d with
  | zero =>
      intro acc cur x
      simp only [upLoop]
      constructor
      · exact fun h => Or.inl h
      · rintro (h | ⟨k, hk, hk0, _⟩)
        · exact h
        · omega
  | succ d ih =>
      intro acc cur x
      show x ∈ upLoop G (acc ∪ parentsOf G cur) (parentsOf G cur) d ↔ _
      rw [ih (acc ∪ parentsOf G cur) (parentsOf G cur) x]
      rw [Finset.mem_union]
      constructor
      · rintro ((h | h) | ⟨k, hk0, hkd, hx⟩)
        · exact Or.inl h
        · exact Or.inr ⟨1, Nat.one_pos, Nat.succ_le_succ (Nat.zero_le d), h⟩
        · exact Or.inr ⟨k + 1, Nat.succ_pos k, Nat.succ_le_succ hkd, hx⟩
      · rintro (h | ⟨k, hk0, hkd, hx⟩)
        · exact Or.inl (Or.inl h)
        · match k, hk0 with
          | 1, _ => exact Or.inl (Or.inr hx)
          | k + 2, _ =>
              exact Or.inr ⟨k + 1, Nat.succ_pos k, Nat.le_of_succ_le_succ hkd, hx⟩

theorem mem_downstreamSet {G : Graph} {f x : String} {d : Nat} :
    x ∈ downstreamSet G f d ↔ ∃ k, 0 < k ∧ k ≤ d ∧ x ∈ iterSucc G {f} k := by
  rw [downstreamSet, mem_downLoop G d ∅ {f} x]
  simp

theorem mem_upstreamSet {G : Graph} {f x : String} {d : Nat} :
    x ∈ upstreamSet G f d ↔ ∃ k, 0 < k ∧ k ≤ d ∧ x ∈ iterPred G {f} k := by
  rw [upstreamSet, mem_upLoop G d ∅ {f} x]
  simp

theorem addNode_mem_nodes {G : Graph} {n x : String} :
    x ∈ (addNode G n).nodes ↔ x ∈ G.nodes ∨ x = n := by
  unfold addNode
  split
  · rename_i h
    constructor
    · exact fun hx => Or.inl hx
    · rintro (hx | rfl)
      · exact hx
      · exact h
  · simp

theorem addNode_edges {G : Graph} {n : String} :
    (addNode G n).edges = G.edges := by
  unfold addNode
  split <;> rfl

theorem addEdge_mem_nodes {G : Graph} {s t x : String} {w : Option Int} :
    x ∈ (addEdge G s t w).nodes ↔ x ∈ G.nodes ∨ x = s ∨ x = t := by
  unfold addEdge
  simp only [addNode_mem_nodes]
  tauto

theorem addEdge_edges {G : Graph} {s t : String} {w : Option Int} :
    (addEdge G s t w).edges = G.edges ++ [⟨s, t, w⟩] := by
  unfold addEdge
  simp [addNode_edges]

theorem foldl_addNode_mem (x : String) :
    ∀ (ns : List NodeRow) (G : Graph),
      x ∈ (ns.foldl (fun G r => addNode G r.id) G).nodes ↔
        x ∈ G.nodes ∨ x ∈ node_ids ns := by
  intro ns
  induction ns with
  | nil => intro G; simp [node_ids]
  | cons r ns ih =>
      intro G
      show x ∈ (ns.foldl _ (addNode G r.id)).nodes ↔ _
      rw [ih (addNode G r.id)]
      simp only [addNode_mem_nodes, node_ids, List.map_cons, List.mem_cons]
      tauto

theorem foldl_addNode_edges :
    ∀ (ns : List NodeRow) (G : Graph),
      (ns.foldl (fun G r => addNode G r.id) G).edges = G.edges := by
  intro ns
  induction ns with
  | nil => intro G; rfl
  | cons r ns ih =>
      intro G
      show (ns.foldl _ (addNode G r.id)).edges = _
      rw [ih (addNode G r.id), addNode_edges]

theorem foldl_addEdge_mem (x : String) :
    ∀ (es : List EdgeRow) (G : Graph),
      x ∈ (es.foldl (fun G e => addEdge G e.src e.tgt (some e.weight)) G).nodes ↔
        x ∈ G.nodes ∨ ∃ e ∈ es, x = e.src ∨ x = e.tgt := by
  intro es
  induction es with
  | nil => intro G; simp
  | cons e es ih =>
      intro G
      show x ∈ (es.foldl _ (addEdge G e.src e.tgt (some e.weight))).nodes ↔ _
      rw [ih (addEdge G e.src e.tgt (some e.weight))]
      simp only [addEdge_mem_nodes, List.mem_cons]
      constructor
      · rintro ((h | h | h) | ⟨e', he', h⟩)
        · exact Or.inl h
        · exact Or.inr ⟨e, Or.inl rfl, Or.inl h⟩
        · exact Or.inr ⟨e, Or.inl rfl, Or.inr h⟩
        · exact Or.inr ⟨e', Or.inr he', h⟩
      · rintro (h | ⟨e', (rfl | he'), h⟩)
        · exact Or.inl (Or.inl h)
        · exact Or.inl (Or.inr h)
        · exact Or.inr ⟨e', he', h⟩

theorem foldl_addEdge_edges :
    ∀ (es : List EdgeRow) (G : Graph),
      (es.foldl (fun G e => addEdge G e.src e.tgt (some e.weight)) G).edges =
        G.edges ++ es.map (fun e => ⟨e.src, e.tgt, some e.weight⟩) := by
  intro es
  induction es with
  | nil => intro G; simp
  | cons e es ih =>
      intro G
      show (es.foldl _ (addEdge G e.src e.tgt (some e.weight))).edges = _
      rw [ih (addEdge G e.src e.tgt (some e.weight)), addEdge_edges]
      simp

theorem foldl_upd_lookup (v : String) :
    ∀ (l : List String) (m : String → Option String) (x : String),
      (l.foldl (fun m n => upd m n v) m) x = if x ∈ l then some v else m x := by
  intro l
  induction l with
  | nil => intro m x; simp
  | cons a l ih =>
      intro m x
      show (l.foldl _ (upd m a v)) x = _
      rw [ih (upd m a v) x]
      by_cases hl : x ∈ l
      · simp [hl]
      · by_cases ha : x = a
        · simp [upd, hl, ha]
        · simp [upd, hl, ha]

theorem rowEdges_sound (src : String) (row : MatrixRow) :
    ∀ (ids : List String) (es : List EdgeRow),
      rowEdges src row ids = some es →
        ∀ e ∈ es, e.src = src ∧ e.tgt ∈ ids := by
  intro ids
  induction ids with
  | nil =>
      intro es h e he
      simp only [rowEdges, Option.some.injEq] at h
      subst h
      cases he
  | cons t ts ih =>
      intro es h e he
      simp only [rowEdges, Option.bind_eq_bind, bind, Option.bind] at h
      cases hc : rowCell row t with
      | none => rw [hc] at h; cases h
      | some w =>
          rw [hc] at h
          cases hr : rowEdges src row ts with
          | none => rw [hr] at h; cases h
          | some rest =>
              rw [hr] at h
              simp only [Option.pure_def, Option.some.injEq] at h
              subst h
              by_cases hw : 0 < w
              · rw [if_pos hw] at he
                rcases List.mem_cons.mp he with rfl | he'
                · exact ⟨rfl, List.mem_cons_self t ts⟩
                · obtain ⟨h1, h2⟩ := ih rest hr e he'
                  exact ⟨h1, List.mem_cons_of_mem t h2⟩
              · rw [if_neg hw] at he
                obtain ⟨h1, h2⟩ := ih rest hr e he
                exact ⟨h1, List.mem_cons_of_mem t h2⟩

theorem rowEdges_isSome (src : String) (row : MatrixRow) :
    ∀ (ids : List String),
      (rowEdges src row ids).isSome = true ↔
        ∀ t ∈ ids, (rowCell row t).isSome = true := by
  intro ids
  induction ids with
  | nil => simp [rowEdges]
  | cons t ts ih =>
      simp only [rowEdges, Option.bind_eq_bind, bind, Option.bind]
      cases hc : rowCell row t with
      | none =>
          constructor
          · intro h; cases h
          · intro h
            have := h t (List.mem_cons_self t ts)
            rw [hc] at this
            cases this
      | some w =>
          cases hr : rowEdges src row ts with
          | none =>
              rw [hr] at ih
              constructor
              · intro h; cases h
              · intro h
                have : (∀ t' ∈ ts, (rowCell row t').isSome = true) := by
                  intro t' ht'
                  exact h t' (List.mem_cons_of_mem t ht')
                rw [← ih] at this
                cases this
          | some rest =>
              rw [hr] at ih
              simp only [Option.isSome_some, true_iff] at ih ⊢
              constructor
              · intro _ t' ht'
                rcases List.mem_cons.mp ht' with rfl | ht''
                · rw [hc]; rfl
                · exact ih t' ht''
              · intro _; rfl

theorem rowEdges_filterMap (src : String) (row : MatrixRow) :
    ∀ (ids : List String),
      (∀ t ∈ ids, (rowCell row t).isSome = true) →
        rowEdges src row ids = some (ids.filterMap (fun t =>
          match rowCell row t with
          | some w => if 0 < w then some ⟨src, t, w⟩ else none
          | none => none)) := by
  intro ids
  induction ids with
  | nil => intro _; rfl
  | cons t ts ih =>
      intro h
      have ht : (rowCell row t).isSome = true := h t (List.mem_cons_self t ts)
      obtain ⟨w, hw⟩ := Option.isSome_iff_exists.mp ht
      have hts : ∀ t' ∈ ts, (rowCell row t').isSome = true :=
        fun t' ht' => h t' (List.mem_cons_of_mem t ht')
      simp only [rowEdges, Option.bind_eq_bind, bind, Option.bind, hw,
        ih hts, List.filterMap_cons]
      by_cases h0 : 0 < w
      · simp [h0]
      · simp [h0]

theorem foldl_add_if {α : Type} (p : α → Prop) [DecidablePred p] (f : α → Int) :
    ∀ (l : List α) (init : Int),
      l.foldl (fun acc e => if p e then acc + f e else acc) init =
        init + ((l.filter (fun e => decide (p e))).map f).sum := by
  intro l
  induction l with
  | nil => intro init; simp
  | cons a l ih =>
      intro init
      show l.foldl _ (if p a then init + f a else init) = _
      rw [ih (if p a then init + f a else init)]
      by_cases hp : p a
      · simp [hp, add_assoc]
      · simp [hp]

theorem build_edges_sound (ns : List NodeRow) :
    ∀ (mx : List MatrixRow) (es : List EdgeRow),
      build_edges ns mx = some es → ∀ e ∈ es, e.tgt ∈ node_ids ns := by
  intro mx
  induction mx with
  | nil =>
      intro es h e he
      simp only [build_edges, Option.some.injEq] at h
      subst h
      cases he
  | cons row rest ih =>
      intro es h e he
      simp only [build_edges, Option.bind_eq_bind, bind, Option.bind] at h
      cases hr : rowEdges row.fromTo row (node_ids ns) with
      | none => rw [hr] at h; cases h
      | some here =>
          rw [hr] at h
          cases hb : build_edges ns rest with
          | none => rw [hb] at h; cases h
          | some there =>
              rw [hb] at h
              simp only [Option.pure_def, Option.some.injEq] at h
              subst h
              rcases List.mem_append.mp he with h1 | h2
              · exact (rowEdges_sound row.fromTo row (node_ids ns) here hr e h1).2
              · exact ih there hb e h2

theorem build_edges_isSome (ns : List NodeRow) :
    ∀ (mx : List MatrixRow),
      (build_edges ns mx).isSome = true ↔
        ∀ row ∈ mx, ∀ t ∈ node_ids ns, (rowCell row t).isSome = true := by
  intro mx
  induction mx with
  | nil => simp [build_edges]
  | cons row rest ih =>
      simp only [build_edges, Option.bind_eq_bind, bind, Option.bind]
      cases hr : rowEdges row.fromTo row (node_ids ns) with
      | none =>
          constructor
          · intro h; cases h
          · intro h
            have : (rowEdges row.fromTo row (node_ids ns)).isSome = true :=
              (rowEdges_isSome row.fromTo row (node_ids ns)).mpr
                (h row (List.mem_cons_self row rest))
            rw [hr] at this
            cases this
      | some here =>
          cases hb : build_edges ns rest with
          | none =>
              rw [hb] at ih
              constructor
              · intro h; cases h
              · intro h
                have : ∀ row' ∈ rest, ∀ t ∈ node_ids ns, (rowCell row' t).isSome = true :=
                  fun row' h' => h row' (List.mem_cons_of_mem row h')
                rw [← ih] at this
                cases this
          | some there =>
              rw [hb] at ih
              simp only [Option.isSome_some, true_iff] at ih ⊢
              constructor
              · intro _ row' hrow' t ht
                rcases List.mem_cons.mp hrow' with rfl | hrow''
                · have : (rowEdges row'.fromTo row' (node_ids ns)).isSome = true := by
                    rw [hr]; rfl
                  exact (rowEdges_isSome row'.fromTo row' (node_ids ns)).mp this t ht
                · exact ih row' hrow'' t ht
              · intro _; rfl

theorem build_edges_filterMap (ns : List NodeRow) :
    ∀ (mx : List MatrixRow),
      (∀ row ∈ mx, ∀ t ∈ node_ids ns, (rowCell row t).isSome = true) →
        build_edges ns mx = some (edgesFromPositiveCells ns mx) := by
  intro mx
  induction mx with
  | nil => intro _; rfl
  | cons row rest ih =>
      intro h
      have hrow := h row (List.mem_cons_self row rest)
      have hrest : ∀ row' ∈ rest, ∀ t ∈ node_ids ns, (rowCell row' t).isSome = true :=
        fun row' h' => h row' (List.mem_cons_of_mem row h')
      simp only [build_edges, Option.bind_eq_bind, bind, Option.bind,
        rowEdges_filterMap row.fromTo row (node_ids ns) hrow, ih hrest,
        edgesFromPositiveCells, List.flatMap_cons]
      rfl

theorem upstreamSet_subset_nodes {G : Graph} (hWf : G.Wf) (f : String) (d : Nat) :
    ∀ x ∈ upstreamSet G f d, x ∈ G.nodes := by
  intro x hx
  rw [mem_upstreamSet] at hx
  obtain ⟨k, hk0, _, hit⟩ := hx
  match k, hk0 with
  | j + 1, _ =>
      rw [iterPred_succ_out G j {f}, mem_parentsOf] at hit
      obtain ⟨n, _, e, he, hs, _⟩ := hit
      exact hs ▸ (hWf e he).1

theorem downstreamSet_subset_nodes {G : Graph} (hWf : G.Wf) (f : String) (d : Nat) :
    ∀ x ∈ downstreamSet G f d, x ∈ G.nodes := by
  intro x hx
  rw [mem_downstreamSet] at hx
  obtain ⟨k, hk0, _, hit⟩ := hx
  match k, hk0 with
  | j + 1, _ =>
      rw [iterSucc_succ_out G j {f}, mem_childrenOf] at hit
      obtain ⟨n, _, e, he, _, ht⟩ := hit
      exact ht ▸ (hWf e he).2

/-- C1 (counterexample): in the cyclic graph A→B→A with focus A and
max_depth 2, the focus node "A" is a member of both its own upstream set
and its own downstream set, so the claim that the focus is always
excluded from both sets, including for cyclic graphs, is false. -/
theorem C1_counterexample :
    "A" ∈ (compute_dependency_subgraph
        ⟨["A", "B"], [⟨"A", "B", some 1⟩, ⟨"B", "A", some 1⟩]⟩ (some "A") 2).1 ∧
    "A" ∈ (compute_dependency_subgraph
        ⟨["A", "B"], [⟨"A", "B", some 1⟩, ⟨"B", "A", some 1⟩]⟩ (some "A") 2).2.1 := by
  decide

/-- C1 (amended): for every graph and focus node present in it, if the
graph has no closed directed walk from the focus back to itself of
length between 1 and max_depth (in particular, whenever the graph is
acyclic or no cycle passes through the focus), then the focus node is a
member of neither the upstream set nor the downstream set returned by
`compute_dependency_subgraph`. -/
theorem C1_focus_excluded_without_cycle (G : Graph) (f : String) (d : Nat)
    (hf : f ∈ G.nodes) (h : ∀ k < d + 1, 0 < k → f ∉ iterSucc G {f} k) :
    f ∉ (compute_dependency_subgraph G (some f) d).1 ∧
    f ∉ (compute_dependency_subgraph G (some f) d).2.1 := by
  simp only [compute_dependency_subgraph, if_pos hf]
  constructor
  · intro hmem
    rw [mem_upstreamSet] at hmem
    obtain ⟨k, hk0, hkd, hit⟩ := hmem
    rw [mem_iterPred_iterSucc G k f f] at hit
    exact h k (by omega) hk0 hit
  · intro hmem
    rw [mem_downstreamSet] at hmem
    obtain ⟨k, hk0, hkd, hit⟩ := hmem
    exact h k (by omega) hk0 hit

/-- Witness for C1: on the acyclic chain A→B→C with focus B and depth 2,
the hypothesis holds and the focus is in neither set. -/
theorem C1_witness :
    "B" ∉ (compute_dependency_subgraph
        ⟨["A", "B", "C"], [⟨"A", "B", some 1⟩, ⟨"B", "C", some 2⟩]⟩ (some "B") 2).1 ∧
    "B" ∉ (compute_dependency_subgraph
        ⟨["A", "B", "C"], [⟨"A", "B", some 1⟩, ⟨"B", "C", some 2⟩]⟩ (some "B") 2).2.1 :=
  C1_focus_excluded_without_cycle
    ⟨["A", "B", "C"], [⟨"A", "B", some 1⟩, ⟨"B", "C", some 2⟩]⟩ "B" 2
    (by decide) (by decide)

/-- C2 (counterexample): `build_graph` on a node table containing only
"A" and an edge row B→C produces a graph whose node set is
["A","B","C"], not ["A"], and which contains the edge B→C even though
neither endpoint is in the node table — phantom nodes are created. -/
theorem C2_counterexample :
    (build_graph [⟨"A", "r"⟩] [⟨"B", "C", 7⟩]).nodes = ["A", "B", "C"] ∧
    (⟨"B", "C", some 7⟩ : GEdge) ∈ (build_graph [⟨"A", "r"⟩] [⟨"B", "C", 7⟩]).edges ∧
    "B" ∉ node_ids [⟨"A", "r"⟩] ∧ "C" ∉ node_ids [⟨"A", "r"⟩] := by
  decide

/-- C2 (amended): `build_graph` performs no referential validation: it
adds every edge row verbatim, and an edge endpoint absent from the node
table is silently created as a phantom node, so the resulting node set
is exactly the node-table ids together with all edge endpoints. -/
theorem C2_build_graph_phantom_nodes (ns : List NodeRow) (es : List EdgeRow) :
    (build_graph ns es).edges = es.map (fun e => ⟨e.src, e.tgt, some e.weight⟩) ∧
    ∀ x, x ∈ (build_graph ns es).nodes ↔
      x ∈ node_ids ns ∨ ∃ e ∈ es, x = e.src ∨ x = e.tgt := by
  constructor
  · show (es.foldl _ (ns.foldl _ (⟨[], []⟩ : Graph))).edges = _
    rw [foldl_addEdge_edges es (ns.foldl (fun G r => addNode G r.id) (⟨[], []⟩ : Graph)),
      foldl_addNode_edges ns (⟨[], []⟩ : Graph)]
    rfl
  · intro x
    show x ∈ (es.foldl _ (ns.foldl _ (⟨[], []⟩ : Graph))).nodes ↔ _
    rw [foldl_addEdge_mem x es (ns.foldl (fun G r => addNode G r.id) (⟨[], []⟩ : Graph)),
      foldl_addNode_mem x ns (⟨[], []⟩ : Graph)]
    simp

/-- C3 (counterexample): with node table ["A"] and a matrix row whose
columns do not include "A", `build_edges` raises (returns `none`,
embedding the pandas `KeyError`), so the core functions are not total:
`build_edges` throws exactly when a node id is missing from a row. -/
theorem C3_counterexample :
    build_edges [⟨"A", "r"⟩] [⟨"X", []⟩] = none := by
  decide

/-- C3 (amended): `build_edges` succeeds precisely when every node id of
the node table appears among the columns of every matrix row; when some
node id is absent from some row it raises `KeyError` (embedded as
`none`).  The remaining core functions are total by construction. -/
theorem C3_build_edges_total_iff (ns : List NodeRow) (mx : List MatrixRow) :
    (build_edges ns mx).isSome = true ↔
      ∀ row ∈ mx, ∀ t ∈ node_ids ns, (rowCell row t).isSome = true :=
  build_edges_isSome ns mx

/-- Witness for C3: on a matrix carrying a column for every node id,
`build_edges` succeeds. -/
theorem C3_witness :
    (build_edges [⟨"A", "r"⟩, ⟨"B", "r"⟩]
      [⟨"A", [("A", 0), ("B", 3)]⟩]).isSome = true :=
  (C3_build_edges_total_iff [⟨"A", "r"⟩, ⟨"B", "r"⟩]
    [⟨"A", [("A", 0), ("B", 3)]⟩]).mpr (by decide)

/-- C4 (counterexample): the matrix row for source "A" has a strictly
positive cell 5 in column "B", but "B" is not a node id, and
`build_edges` emits no edge at all: an unknown target column is ignored,
not honored as written. -/
theorem C4_counterexample :
    rowCell ⟨"A", [("A", 0), ("B", 5)]⟩ "B" = some 5 ∧
    build_edges [⟨"A", "r"⟩] [⟨"A", [("A", 0), ("B", 5)]⟩] = some [] := by
  decide

/-- C4 (amended): `build_edges` reads only the columns named by the node
table's ids; a matrix column whose name is not a known node id is never
consulted, so every edge it emits has a target that is a node id. -/
theorem C4_targets_are_node_ids (ns : List NodeRow) (mx : List MatrixRow)
    (es : List EdgeRow) (e : EdgeRow) (h : build_edges ns mx = some es)
    (he : e ∈ es) : e.tgt ∈ node_ids ns :=
  build_edges_sound ns mx es h e he

/-- Witness for C4: the single edge emitted for node table ["B"] and
matrix row A↦{B: 5} has target "B", a node id. -/
theorem C4_witness :
    (⟨"A", "B", 5⟩ : EdgeRow).tgt ∈ node_ids [⟨"B", "r"⟩] :=
  C4_targets_are_node_ids [⟨"B", "r"⟩] [⟨"A", [("B", 5)]⟩]
    [⟨"A", "B", 5⟩] ⟨"A", "B", 5⟩ (by decide) (by decide)

/-- C5 (confirmed): for every graph, node table, focus present in the
graph and depth, the `downstream_weight` of `compute_impact_metrics` is
the sum over all edges `(u, v)` of the full graph with `u` in the
downstream set or `u = focus`, and `v` in the downstream set, of the
edge's weight, a missing weight attribute contributing 0. -/
theorem C5_downstream_weight_sum (G : Graph) (ndf : List NodeRow) (f : String)
    (d : Nat) (h : f ∈ G.nodes) :
    (compute_impact_metrics G ndf (some f) d).downstream_weight =
      downstream_weight_spec G f ((compute_dependency_subgraph G (some f) d).2.1) := by
  simp only [compute_impact_metrics, compute_dependency_subgraph, if_pos h]
  show G.edges.foldl _ 0 = _
  rw [foldl_add_if
    (fun e => (e.src ∈ downLoop G ∅ {f} d ∨ e.src = f) ∧ e.tgt ∈ downLoop G ∅ {f} d)
    (fun e => e.weight.getD 0) G.edges 0]
  simp [downstream_weight_spec, downstreamSet]

/-- Witness for C5 on a concrete graph with a missing-weight edge. -/
theorem C5_witness :
    (compute_impact_metrics
        ⟨["A", "B", "C"], [⟨"A", "B", some 2⟩, ⟨"B", "C", none⟩, ⟨"C", "A", some 5⟩]⟩
        [⟨"A", "r1"⟩, ⟨"B", "r2"⟩, ⟨"C", "r2"⟩] (some "A") 2).downstream_weight =
      downstream_weight_spec
        ⟨["A", "B", "C"], [⟨"A", "B", some 2⟩, ⟨"B", "C", none⟩, ⟨"C", "A", some 5⟩]⟩
        "A"
        ((compute_dependency_subgraph
            ⟨["A", "B", "C"], [⟨"A", "B", some 2⟩, ⟨"B", "C", none⟩, ⟨"C", "A", some 5⟩]⟩
            (some "A") 2).2.1) :=
  C5_downstream_weight_sum
    ⟨["A", "B", "C"], [⟨"A", "B", some 2⟩, ⟨"B", "C", none⟩, ⟨"C", "A", some 5⟩]⟩
    [⟨"A", "r1"⟩, ⟨"B", "r2"⟩, ⟨"C", "r2"⟩] "A" 2 (by decide)

/-- C6 (confirmed): when the focus is `None` or absent from the graph,
`compute_dependency_subgraph` returns two empty sets and the full input
graph unchanged, and `compute_impact_metrics` returns the all-zero
record. -/
theorem C6_missing_focus_graceful (G : Graph) (ndf : List NodeRow) (d : Nat)
    (focus : Option String) (h : ∀ f, focus = some f → f ∉ G.nodes) :
    compute_dependency_subgraph G focus d = (∅, ∅, G) ∧
    compute_impact_metrics G ndf focus d = ⟨0, 0, 0, 0⟩ := by
  cases focus with
  | none => exact ⟨rfl, rfl⟩
  | some f =>
      have hf : f ∉ G.nodes := h f rfl
      exact ⟨by simp [compute_dependency_subgraph, hf],
             by simp [compute_impact_metrics, hf]⟩

/-- Witness for C6 with a focus id absent from the graph. -/
theorem C6_witness :
    compute_dependency_subgraph ⟨["A"], []⟩ (some "Z") 3 = (∅, ∅, ⟨["A"], []⟩) ∧
    compute_impact_metrics ⟨["A"], []⟩ [⟨"A", "r"⟩] (some "Z") 3 = ⟨0, 0, 0, 0⟩ :=
  C6_missing_focus_graceful ⟨["A"], []⟩ [⟨"A", "r"⟩] 3 (some "Z")
    (by intro f hf; cases hf; decide)

/-- C7 (counterexample): for a focus id absent from the graph the
returned subgraph is the full input graph, so its node set is not
`{focus} ∪ upstream ∪ downstream`: the claim fails when quantified over
every focus node rather than focus nodes present in the graph. -/
theorem C7_counterexample :
    (compute_dependency_subgraph ⟨["A", "B"], []⟩ (some "Z") 1).2.2.nodes.toFinset ≠
      (compute_dependency_subgraph ⟨["A", "B"], []⟩ (some "Z") 1).1 ∪
      (compute_dependency_subgraph ⟨["A", "B"], []⟩ (some "Z") 1).2.1 ∪ {"Z"} := by
  decide

/-- C7 (amended): for every well-formed graph and focus node present in
it, the node set of the induced subgraph is exactly
`upstream ∪ downstream ∪ {focus}`, and its edges are exactly the edges
of the original graph with both endpoints in that set. -/
theorem C7_induced_subgraph_exact (G : Graph) (f : String) (d : Nat)
    (hWf : G.Wf) (hf : f ∈ G.nodes) :
    (compute_dependency_subgraph G (some f) d).2.2.nodes.toFinset =
      (compute_dependency_subgraph G (some f) d).1 ∪
      (compute_dependency_subgraph G (some f) d).2.1 ∪ {f} ∧
    ∀ e, e ∈ (compute_dependency_subgraph G (some f) d).2.2.edges ↔
      e ∈ G.edges ∧
      e.src ∈ (compute_dependency_subgraph G (some f) d).1 ∪
        (compute_dependency_subgraph G (some f) d).2.1 ∪ {f} ∧
      e.tgt ∈ (compute_dependency_subgraph G (some f) d).1 ∪
        (compute_dependency_subgraph G (some f) d).2.1 ∪ {f} := by
  simp only [compute_dependency_subgraph, if_pos hf]
  constructor
  · ext x
    simp only [inducedSubgraph, List.mem_toFinset, List.mem_filter, decide_eq_true_eq]
    constructor
    · rintro ⟨_, hx⟩
      exact hx
    · intro hx
      refine ⟨?_, hx⟩
      rcases Finset.mem_union.mp hx with hx' | hx'
      · rcases Finset.mem_union.mp hx' with hu | hd
        · exact upstreamSet_subset_nodes hWf f d x hu
        · exact downstreamSet_subset_nodes hWf f d x hd
      · rw [Finset.mem_singleton] at hx'
        exact hx' ▸ hf
  · intro e
    simp only [inducedSubgraph, List.mem_filter, decide_eq_true_eq]

/-- Witness for C7 on a concrete well-formed graph. -/
theorem C7_witness :
    (compute_dependency_subgraph ⟨["A", "B"], [⟨"A", "B", some 1⟩]⟩ (some "A") 1).2.2.nodes.toFinset =
      (compute_dependency_subgraph ⟨["A", "B"], [⟨"A", "B", some 1⟩]⟩ (some "A") 1).1 ∪
      (compute_dependency_subgraph ⟨["A", "B"], [⟨"A", "B", some 1⟩]⟩ (some "A") 1).2.1 ∪ {"A"} ∧
    ∀ e, e ∈ (compute_dependency_subgraph ⟨["A", "B"], [⟨"A", "B", some 1⟩]⟩ (some "A") 1).2.2.edges ↔
      e ∈ (⟨["A", "B"], [⟨"A", "B", some 1⟩]⟩ : Graph).edges ∧
      e.src ∈ (compute_dependency_subgraph ⟨["A", "B"], [⟨"A", "B", some 1⟩]⟩ (some "A") 1).1 ∪
        (compute_dependency_subgraph ⟨["A", "B"], [⟨"A", "B", some 1⟩]⟩ (some "A") 1).2.1 ∪ {"A"} ∧
      e.tgt ∈ (compute_dependency_subgraph ⟨["A", "B"], [⟨"A", "B", some 1⟩]⟩ (some "A") 1).1 ∪
        (compute_dependency_subgraph ⟨["A", "B"], [⟨"A", "B", some 1⟩]⟩ (some "A") 1).2.1 ∪ {"A"} :=
  C7_induced_subgraph_exact ⟨["A", "B"], [⟨"A", "B", some 1⟩]⟩ "A" 1
    (by decide) (by decide)

/-- C8 (confirmed): for a focus present in the graph the upstream and
downstream sets of `compute_dependency_subgraph` are monotone in
max_depth, and with zero expansions both sets are empty. -/
theorem C8_depth_monotone (G : Graph) (f : String) (d1 d2 : Nat)
    (hf : f ∈ G.nodes) (hd : d1 ≤ d2) :
    (compute_dependency_subgraph G (some f) d1).1 ⊆
      (compute_dependency_subgraph G (some f) d2).1 ∧
    (compute_dependency_subgraph G (some f) d1).2.1 ⊆
      (compute_dependency_subgraph G (some f) d2).2.1 ∧
    (compute_dependency_subgraph G (some f) 0).1 = ∅ ∧
    (compute_dependency_subgraph G (some f) 0).2.1 = ∅ := by
  simp only [compute_dependency_subgraph, if_pos hf]
  refine ⟨?_, ?_, rfl, rfl⟩
  · intro x hx
    rw [mem_upstreamSet] at hx ⊢
    obtain ⟨k, h0, hk, hit⟩ := hx
    exact ⟨k, h0, hk.trans hd, hit⟩
  · intro x hx
    rw [mem_downstreamSet] at hx ⊢
    obtain ⟨k, h0, hk, hit⟩ := hx
    exact ⟨k, h0, hk.trans hd, hit⟩

/-- Witness for C8 on the chain A→B→C with depths 1 ≤ 2. -/
theorem C8_witness :
    (compute_dependency_subgraph
        ⟨["A", "B", "C"], [⟨"A", "B", some 1⟩, ⟨"B", "C", some 2⟩]⟩ (some "B") 1).1 ⊆
      (compute_dependency_subgraph
        ⟨["A", "B", "C"], [⟨"A", "B", some 1⟩, ⟨"B", "C", some 2⟩]⟩ (some "B") 2).1 ∧
    (compute_dependency_subgraph
        ⟨["A", "B", "C"], [⟨"A", "B", some 1⟩, ⟨"B", "C", some 2⟩]⟩ (some "B") 1).2.1 ⊆
      (compute_dependency_subgraph
        ⟨["A", "B", "C"], [⟨"A", "B", some 1⟩, ⟨"B", "C", some 2⟩]⟩ (some "B") 2).2.1 ∧
    (compute_dependency_subgraph
        ⟨["A", "B", "C"], [⟨"A", "B", some 1⟩, ⟨"B", "C", some 2⟩]⟩ (some "B") 0).1 = ∅ ∧
    (compute_dependency_subgraph
        ⟨["A", "B", "C"], [⟨"A", "B", some 1⟩, ⟨"B", "C", some 2⟩]⟩ (some "B") 0).2.1 = ∅ :=
  C8_depth_monotone
    ⟨["A", "B", "C"], [⟨"A", "B", some 1⟩, ⟨"B", "C", some 2⟩]⟩ "B" 1 2
    (by decide) (by omega)

/-- C9 (confirmed): `classify_nodes` with a non-None focus assigns to
every id exactly the role given by the precedence focus > downstream >
upstream: ids in `upstream ∪ downstream ∪ {focus}` get exactly one role,
a node in both sets gets "downstream", the focus always gets "focus",
and any other id gets no role. -/
theorem C9_classify_roles (f : String) (up down : Finset String) (n : String) :
    classify_nodes (some f) up down n =
      if n = f then some "focus"
      else if n ∈ down then some "downstream"
      else if n ∈ up then some "upstream"
      else none := by
  have step : classify_nodes (some f) up down n =
      if n = f then some "focus"
      else ((down.sort (fun a b => a ≤ b)).foldl (fun m k => upd m k "downstream")
        ((up.sort (fun a b => a ≤ b)).foldl (fun m k => upd m k "upstream")
          (fun _ => none))) n := rfl
  rw [step, foldl_upd_lookup "downstream", foldl_upd_lookup "upstream"]
  simp only [Finset.mem_sort]

/-- C10 (confirmed): when every node id has a column in every matrix
row, `build_edges` returns exactly one edge row per (source, target)
pair whose cell is strictly positive, weight copied verbatim, zero and
negative cells dropped. -/
theorem C10_build_edges_positive_cells (ns : List NodeRow) (mx : List MatrixRow)
    (h : ∀ row ∈ mx, ∀ t ∈ node_ids ns, (rowCell row t).isSome = true) :
    build_edges ns mx = some (edgesFromPositiveCells ns mx) :=
  build_edges_filterMap ns mx h

/-- Witness for C10: the spec's scenario — a matrix row for source "A"
with cells {B: 5, C: 0, D: -1} yields exactly one edge (A→B, weight 5). -/
theorem C10_witness :
    build_edges [⟨"B", "r"⟩, ⟨"C", "r"⟩, ⟨"D", "r"⟩]
      [⟨"A", [("B", 5), ("C", 0), ("D", -1)]⟩] = some [⟨"A", "B", 5⟩] :=
  (C10_build_edges_positive_cells [⟨"B", "r"⟩, ⟨"C", "r"⟩, ⟨"D", "r"⟩]
    [⟨"A", [("B", 5), ("C", 0), ("D", -1)]⟩] (by decide)).trans (by decide)

end SupplyChain
